import Mathlib

/-!
# File-as-Macro: verification of `main.c`

A shallow embedding of the program that turns a file into a header defining
one macro whose body is the comma-separated list of the file's bytes.

Modelling conventions.

* A `char*` is the list of the characters stored from the pointer onwards,
  terminator included; `strlen` counts up to the first `NUL`.  An argument
  string with text `p` is therefore the buffer `asciz p = p ++ [NUL]`.
* A byte (`uint8_t`) is a natural number below 256.
* The small array `byteStr` handed to `ByteToDecString` is a map from
  indices to characters, so that a store outside the array would be visible.
* A file descriptor open for writing is the list of characters written so
  far; `write` is taken to transfer the whole count.  A descriptor open for
  reading is the list of the results of the successive `read` calls, after
  which `read` returns 0.
* `malloc` and `close` are taken to succeed.
* `getopt` is not part of the program: `main` receives the options it
  returns, in order, and the operands left at `optind`.
-/

namespace Embed

/-! ## Constants and library functions -/

/-- The terminator of a C string. -/
def NUL : Char := Char.ofNat 0

/-- Flag bit: the output name was allocated by the program. -/
def DEST_STR_OWNED : Nat := 1 <<< 0

/-- Flag bit: the macro name was allocated by the program. -/
def DEF_STR_OWNED : Nat := 1 <<< 1

/-- Capacity of the read buffer. -/
def READ_BUFFER_SIZE : Nat := 1024

/-- Exit status used on every failure (`EXIT_FAILURE`). -/
def EXIT_FAILURE : Nat := 1

/-- Open flags of `fcntl.h` (Linux values). -/
def O_WRONLY : Nat := 0o1

/-- Create the file when it does not exist. -/
def O_CREAT : Nat := 0o100

/-- Fail when the file exists. -/
def O_EXCL : Nat := 0o200

/-- Truncate the file to length zero. -/
def O_TRUNC : Nat := 0o1000

/-- The buffer holding the C string with text `p`. -/
def asciz (p : List Char) : List Char := p ++ [NUL]

/-- Text of the C string stored in a buffer: the characters before the
first `NUL`. -/
def cstr (s : List Char) : List Char := s.takeWhile (fun c => c != NUL)

/-- C `strlen`. -/
def strlen (s : List Char) : Nat := (cstr s).length

/-- C `toupper` in the "C" locale (the program never calls `setlocale`):
the letters `a`..`z` (codes 97..122) go to `A`..`Z` (codes 65..90),
everything else is unchanged. -/
def toupper (c : Char) : Char :=
  if 97 ≤ c.toNat ∧ c.toNat ≤ 122 then Char.ofNat (c.toNat - 32) else c

/-- The `n` characters read from a buffer given as an index map, from
index 0 on. -/
def bufTake (ptr : Nat → Char) (n : Nat) : List Char := (List.range n).map ptr

/-- POSIX `write(fd, buf, count)` on a descriptor that accepts everything:
appends the first `count` characters of `buf`. -/
def write (fd : List Char) (buf : List Char) (count : Nat) : List Char :=
  fd ++ buf.take count

/-- Result of one `read` call. -/
inductive ReadResult where
  /-- The call returned -1. -/
  | error : ReadResult
  /-- The call stored `chunk` in the buffer and returned its length
  (0 for the empty chunk). -/
  | bytes (chunk : List Nat) : ReadResult
  deriving DecidableEq, Repr

/-! ## Error reporting (lines 22-44) -/

/-- Macro `ERRLOG`: every argument is written to the error stream with its
`strlen`. -/
def ERRLOG (stderr : List Char) (args : List (List Char)) : List Char :=
  args.foldl (fun fd a => write fd a (strlen a)) stderr

/-- Function `UsageError`: the text sent to the error stream; the process then exits
with `EXIT_FAILURE`. -/
def UsageError (progName : List Char) : List Char :=
  ERRLOG [] [asciz "Usage: ".toList, progName,
    asciz "[-o output] [-d define] [-f] filename\n".toList]

/-- Function `ErrorExit`: the text sent to the error stream, `strerror`
being the buffer `strerror(errno)` returns; the process then exits with
`EXIT_FAILURE`. -/
def ErrorExit (strerror : List Char) : List Char :=
  ERRLOG [] [asciz "Error: ".toList, strerror, asciz "\n".toList]

/-! ## Name derivation (lines 47-127) -/

/-- Function `GenerateHeaderName`: the allocated buffer and the updated
ownership flag.  The first `length` characters of `source` are copied and
mapped, then the three characters of `".h"` with its terminator follow. -/
def GenerateHeaderName (ownershipFlag : Nat) (source : List Char) (length : Nat) :
    List Char × Nat :=
  let ownershipFlag := (ownershipFlag ||| DEST_STR_OWNED) % 256
  let header := (source.take length).map
    (fun c => if c = '.' ∨ c = '/' then '_' else c)
  (header ++ (asciz ".h".toList).take 3, ownershipFlag)

/-- Function `GenerateDefinitionName`: the allocated buffer and the updated
ownership flag.  The six characters `EMBED_` come first, then the first
`length` characters of `source`, mapped, then the terminator. -/
def GenerateDefinitionName (ownershipFlag : Nat) (source : List Char) (length : Nat) :
    List Char × Nat :=
  let ownershipFlag := (ownershipFlag ||| DEF_STR_OWNED) % 256
  let definition := "EMBED_".toList.take 6 ++ (source.take length).map
    (fun c => if c = '.' ∨ c = '/' then '_' else toupper c)
  (definition ++ [NUL], ownershipFlag)

/-- The loop of line 105: starting from `begin`, step back while
`begin > header` and the character before `begin` is not `/`. -/
def igBegin (header : List Char) : Nat → Nat
  | 0 => 0
  | begin + 1 => if header.getD begin NUL ≠ '/' then igBegin header begin else begin + 1

/-- Function `GenerateIGName`: `nullTerm` is the offset of the terminator in
`header`.  The `length + 1` characters from `begin` on are copied, and the
first `length` of them are mapped. -/
def GenerateIGName (header : List Char) (nullTerm : Nat) : List Char :=
  let begin := igBegin header nullTerm
  let length := nullTerm - begin
  let IGDefinition := (header.drop begin).take (length + 1)
  (IGDefinition.take length).map (fun c => if c = '.' then '_' else toupper c)
    ++ IGDefinition.drop length

/-! ## Byte encoding (lines 136-156) -/

/-- The table `numerals`. -/
def numerals : List Char := "0123456789".toList

/-- Function `ByteToDecString`: the buffer after the stores and the returned
count.  The pairs `s1` and `s2` hold the buffer and `currentChar` after the
first and the second `if`. -/
def ByteToDecString (ptr : Nat → Char) (byte : Nat) : (Nat → Char) × Nat :=
  -- lines 140-144
  let digit := (byte / 100) % 256
  let s1 : (Nat → Char) × Nat :=
    if digit ≠ 0 then (Function.update ptr 0 (numerals.getD digit NUL), 1) else (ptr, 0)
  -- lines 146-150
  let digit := ((byte % 100) / 10) % 256
  let s2 : (Nat → Char) × Nat :=
    if digit ≠ 0 then (Function.update s1.1 s1.2 (numerals.getD digit NUL), s1.2 + 1) else s1
  -- lines 152-155
  (Function.update s2.1 s2.2 (numerals.getD (byte % 10) NUL), s2.2 + 1)

/-! ## Writing the document (lines 158-198) -/

/-- Function `WriteIncludeGuardHeader`: five writes. -/
def WriteIncludeGuardHeader (outputFD : List Char) (includeGuardStr : List Char)
    (includeGuardSize : Nat) : List Char :=
  let outputFD := write outputFD "#ifndef ".toList 8
  let outputFD := write outputFD includeGuardStr includeGuardSize
  let outputFD := write outputFD "\n#define ".toList 9
  let outputFD := write outputFD includeGuardStr includeGuardSize
  write outputFD "\n\n".toList 2

/-- Function `WriteIncludeGuardFooter`: one write. -/
def WriteIncludeGuardFooter (outputFD : List Char) : List Char :=
  write outputFD "#endif".toList 6

/-- The variables of `EmbedSource` that change in its loops. -/
structure EmbedState where
  /-- What has been written to the output. -/
  outputFD : List Char
  /-- Zero until the first token has been written. -/
  placeComma : Nat
  /-- The array `byteStr`. -/
  byteStr : Nat → Char

/-- One turn of the `for` loop (lines 186-194) on the byte `buffer[i]`. -/
def embedByte (s : EmbedState) (byte : Nat) : EmbedState :=
  let outputFD := if s.placeComma ≠ 0 then write s.outputFD [','] 1 else s.outputFD
  let r := ByteToDecString s.byteStr byte
  { outputFD := write outputFD (bufTake r.1 r.2) r.2
    placeComma := if s.placeComma ≠ 0 then s.placeComma else 1
    byteStr := r.1 }

/-- The `while` loop (lines 179-196) over the results of the successive
reads: it ends at the first read of length zero, which is also what `read`
returns once the listed results are used up.  `Except.error` carries what
had been written when `ErrorExit` was called. -/
def embedLoop : List ReadResult → EmbedState → Except (List Char) EmbedState
  | [], s => .ok s
  | .error :: _, s => .error s.outputFD
  | .bytes chunk :: rest, s =>
    if chunk.length = 0 then .ok s else embedLoop rest (chunk.foldl embedByte s)

/-- Function `EmbedSource`; `byteStr` is the indeterminate initial content of
the local array. -/
def EmbedSource (outputFD : List Char) (sourceFD : List ReadResult)
    (definitionStr : List Char) (definitionSize : Nat) (byteStr : Nat → Char) :
    Except (List Char) (List Char) :=
  let outputFD := write outputFD "#define ".toList 8
  let outputFD := write outputFD definitionStr definitionSize
  let outputFD := write outputFD " ".toList 1
  match embedLoop sourceFD { outputFD := outputFD, placeComma := 0, byteStr := byteStr } with
  | .error written => .error written
  | .ok s => .ok (write s.outputFD "\n\n".toList 2)

/-- The three calls of lines 281-283 of `main`. -/
def writeDocument (outputFD : List Char) (sourceFD : List ReadResult)
    (includeGuard : List Char) (IGSize : Nat) (definition : List Char)
    (byteStr : Nat → Char) : Except (List Char) (List Char) :=
  let outputFD := WriteIncludeGuardHeader outputFD includeGuard IGSize
  match EmbedSource outputFD sourceFD definition (strlen definition) byteStr with
  | .error written => .error written
  | .ok outputFD => .ok (WriteIncludeGuardFooter outputFD)

/-! ## `main` (lines 200-302) -/

/-- What one call of `getopt(argc, argv, "o:d:f")` reports. -/
inductive GetoptResult where
  /-- Option `-o` with its argument. -/
  | o (optarg : List Char) : GetoptResult
  /-- Option `-d` with its argument. -/
  | d (optarg : List Char) : GetoptResult
  /-- Option `-f`. -/
  | f : GetoptResult
  /-- The character `?`: an unknown option or a missing argument. -/
  | unknown : GetoptResult
  deriving DecidableEq, Repr

/-- The variables set by the option loop; `none` is the `NULL` pointer. -/
structure Options where
  /-- Name of the header. -/
  output : Option (List Char)
  /-- Name of the generated macro. -/
  definition : Option (List Char)
  /-- `O_EXCL` unless `-f` was given. -/
  replaceFlag : Nat
  deriving DecidableEq, Repr

/-- One turn of the option loop (lines 224-240); `none` when `UsageError`
is called. -/
def parseOption (a : Options) : GetoptResult → Option Options
  | .o optarg => some { a with output := some optarg }
  | .d optarg => some { a with definition := some optarg }
  | .f => some { a with replaceFlag := 0 }
  | .unknown => none

/-- The names `main` settles on. -/
structure Names where
  /-- The ownership flag after the defaults were filled in. -/
  ownershipFlag : Nat
  /-- Name of the output file. -/
  output : List Char
  /-- Name of the macro. -/
  definition : List Char
  /-- The include-guard token. -/
  includeGuard : List Char
  /-- Its `strlen`. -/
  IGSize : Nat
  deriving DecidableEq, Repr

/-- Lines 252-267 of `main`: defaults for the names that were not given, then
the include-guard token of the output name. -/
def resolveNames (ownershipFlag : Nat) (output definition : Option (List Char))
    (sourcePath : List Char) : Names :=
  let sourceLength := strlen sourcePath
  let o : List Char × Nat :=
    match output with
    | none => GenerateHeaderName ownershipFlag sourcePath sourceLength
    | some output => (output, ownershipFlag)
  let d : List Char × Nat :=
    match definition with
    | none => GenerateDefinitionName o.2 sourcePath sourceLength
    | some definition => (definition, o.2)
  let includeGuard := GenerateIGName o.1 (strlen o.1)
  { ownershipFlag := d.2
    output := o.1
    definition := d.1
    includeGuard := includeGuard
    IGSize := strlen includeGuard }

/-- POSIX `open` for writing, on a destination that is absent (`none`) or
holds `some old`: the fresh descriptor, or `none` when the call returns -1. -/
def openOutput (dest : Option (List Char)) (flags : Nat) : Option (List Char) :=
  match dest with
  | none => if flags &&& O_CREAT ≠ 0 then some [] else none
  | some old =>
    if flags &&& O_CREAT ≠ 0 ∧ flags &&& O_EXCL ≠ 0 then none
    else if flags &&& O_TRUNC ≠ 0 then some [] else some old

/-- What the program finds when it runs. -/
structure Env where
  /-- The reads that `open(sourcePath, O_RDONLY)` gives access to; `none`
  when that call fails. -/
  sourceFD : Option (List ReadResult)
  /-- Content of the file named by the output name, when it exists. -/
  dest : Option (List Char)
  /-- Initial content of the local array `byteStr`. -/
  byteStr : Nat → Char
  /-- The buffer `strerror(errno)` returns when a call fails. -/
  strerror : List Char

/-- What a run leaves behind. -/
structure Outcome where
  /-- Exit status. -/
  status : Nat
  /-- Text written to the error stream. -/
  stderr : List Char
  /-- The name passed to `open` for the destination, when that call was
  reached. -/
  output : Option (List Char)
  /-- Content of the destination afterwards, when it exists. -/
  dest : Option (List Char)
  deriving DecidableEq, Repr

/-- Lines 249-301 of `main`, once the options are parsed and the single
operand `sourcePath` is known: the names are settled, the two files are
opened and the document is written. -/
def mainRun (a : Options) (sourcePath : List Char) (env : Env) : Outcome :=
  let names := resolveNames 0 a.output a.definition sourcePath
  match env.sourceFD with
  | none =>
    { status := EXIT_FAILURE, stderr := ErrorExit env.strerror, output := none,
      dest := env.dest }
  | some sourceFD =>
    match openOutput env.dest (O_WRONLY ||| O_CREAT ||| O_TRUNC ||| a.replaceFlag) with
    | none =>
      { status := EXIT_FAILURE, stderr := ErrorExit env.strerror,
        output := some names.output, dest := env.dest }
    | some outputFD =>
      match writeDocument outputFD sourceFD names.includeGuard names.IGSize names.definition
          env.byteStr with
      | .error written =>
        { status := EXIT_FAILURE, stderr := ErrorExit env.strerror,
          output := some names.output, dest := some written }
      | .ok written =>
        { status := 0, stderr := [], output := some names.output, dest := some written }

/-- The program: `progName` is `argv[0]`, `opts` the results of the `getopt`
calls before it returns -1, `operands` the arguments from `optind` on.  With
`argc < 2` there are no options and no operands, and the early exit of line
206 is the exit of line 246. -/
def main (progName : List Char) (opts : List GetoptResult)
    (operands : List (List Char)) (env : Env) : Outcome :=
  match opts.foldlM parseOption { output := none, definition := none, replaceFlag := O_EXCL } with
  | none =>
    { status := EXIT_FAILURE, stderr := UsageError progName, output := none, dest := env.dest }
  | some a =>
    match operands with
    | [sourcePath] => mainRun a sourcePath env
    | _ =>
      { status := EXIT_FAILURE, stderr := UsageError progName, output := none, dest := env.dest }

/-! ## Reference notions used to state the properties -/

/-- The token `ByteToDecString` produces for a byte: the characters it
stores, up to the count it returns. -/
def decToken (byte : Nat) : List Char :=
  bufTake (ByteToDecString (fun _ => NUL) byte).1 (ByteToDecString (fun _ => NUL) byte).2

/-- The body of the macro for a byte sequence: the tokens of the bytes, in
order, joined by a single comma. -/
def body (bs : List Nat) : List Char := List.intercalate [','] (bs.map decToken)

/-- The results of reading a file in the given chunks, then a read of
length zero. -/
def readsOf (chunks : List (List Nat)) : List ReadResult :=
  chunks.map ReadResult.bytes ++ [ReadResult.bytes []]

/-- The substring after the last `/` (the whole string when there is
none): the longest suffix without `/`. -/
def lastComponent (h : List Char) : List Char :=
  (h.reverse.takeWhile (fun c => c != '/')).reverse

/-- An upper-case letter `A`..`Z`. -/
def isUpperLetter (c : Char) : Prop := 65 ≤ c.toNat ∧ c.toNat ≤ 90

/-- A letter `A`..`Z` or `a`..`z`. -/
def isLetter (c : Char) : Prop :=
  (65 ≤ c.toNat ∧ c.toNat ≤ 90) ∨ (97 ≤ c.toNat ∧ c.toNat ≤ 122)

instance (c : Char) : Decidable (isUpperLetter c) := by
  unfold isUpperLetter; infer_instance

instance (c : Char) : Decidable (isLetter c) := by
  unfold isLetter; infer_instance

/-- What the `for` loop appends for a chunk, depending on whether a token
has been written before. -/
def sepTokens (placeComma : Nat) : List Nat → List Char
  | [] => []
  | b :: bs =>
    (if placeComma ≠ 0 then [','] else []) ++ decToken b ++ sepTokens 1 bs

/-- A decimal digit `0`..`9` (codes 48..57). -/
def isDigitChar (c : Char) : Prop := 48 ≤ c.toNat ∧ c.toNat ≤ 57

instance (c : Char) : Decidable (isDigitChar c) := by
  unfold isDigitChar; infer_instance

/-- The common stem of the default names of a source path: `.` and `/`
replaced by `_`, every other character upper-cased. -/
def stem (p : List Char) : List Char :=
  p.map (fun c => if c = '.' ∨ c = '/' then '_' else toupper c)

/-- What lines 291-299 of `main` do with the two names. -/
structure Released where
  /-- Whether `free(definition)` is called. -/
  definition : Bool
  /-- Whether `free(output)` is called. -/
  output : Bool
  /-- The ownership flag afterwards. -/
  ownershipFlag : Nat
  deriving DecidableEq, Repr

/-- Lines 291-299 of `main` (`includeGuard` is always freed): each name is
freed when its bit is set in the ownership flag, and the bit is then cleared
with `&= ~BIT`, the complement being taken on a 32-bit `int` and the result
stored in the `uint8_t` flag. -/
def release (ownershipFlag : Nat) : Released :=
  let d : Bool × Nat :=
    if ownershipFlag &&& DEF_STR_OWNED ≠ 0 then
      (true, (ownershipFlag &&& (2 ^ 32 - 1 - DEF_STR_OWNED)) % 256)
    else (false, ownershipFlag)
  let o : Bool × Nat :=
    if d.2 &&& DEST_STR_OWNED ≠ 0 then
      (true, (d.2 &&& (2 ^ 32 - 1 - DEST_STR_OWNED)) % 256)
    else (false, d.2)
  { definition := d.1, output := o.1, ownershipFlag := o.2 }

/-- An example environment: the source holds the single byte 65 and the
destination exists with the content `old`. -/
def exampleEnv : Env :=
  { sourceFD := some (readsOf [[65]]), dest := some "old".toList, byteStr := fun _ => NUL,
    strerror := asciz "File exists".toList }

deriving instance DecidableEq for Except

/-! ## Auxiliary facts -/

theorem count_le_three (ptr : Nat → Char) (b : Nat) : (ByteToDecString ptr b).2 ≤ 3 := by
  unfold ByteToDecString
  dsimp only
  split_ifs <;> simp

theorem stored_eq_decToken (ptr : Nat → Char) (b : Nat) :
    bufTake (ByteToDecString ptr b).1 (ByteToDecString ptr b).2 = decToken b := by
  unfold decToken ByteToDecString bufTake
  dsimp only
  split_ifs <;> simp [List.range_succ, Function.update]

theorem bufTake_take (ptr : Nat → Char) (n : Nat) :
    (bufTake ptr n).take n = bufTake ptr n := by
  apply List.take_of_length_le
  simp [bufTake]

theorem embedByte_outputFD (s : EmbedState) (b : Nat) :
    (embedByte s b).outputFD
      = s.outputFD ++ ((if s.placeComma ≠ 0 then [','] else []) ++ decToken b) := by
  unfold embedByte write
  dsimp only
  rw [bufTake_take, stored_eq_decToken]
  split_ifs <;> simp

theorem embedByte_placeComma (s : EmbedState) (b : Nat) :
    (embedByte s b).placeComma ≠ 0 := by
  unfold embedByte
  dsimp only
  split_ifs <;> simp_all

theorem sepTokens_of_ne_zero {k : Nat} (hk : k ≠ 0) (bs : List Nat) :
    sepTokens k bs = sepTokens 1 bs := by
  cases bs with
  | nil => rfl
  | cons b bs => simp [sepTokens, hk]

theorem foldl_embedByte_outputFD (chunk : List Nat) (s : EmbedState) :
    (chunk.foldl embedByte s).outputFD = s.outputFD ++ sepTokens s.placeComma chunk := by
  induction chunk generalizing s with
  | nil => simp [sepTokens]
  | cons b bs ih =>
    rw [List.foldl_cons, ih, embedByte_outputFD,
      sepTokens_of_ne_zero (embedByte_placeComma s b)]
    simp [sepTokens]

theorem foldl_embedByte_placeComma (chunk : List Nat) (s : EmbedState) (h : chunk ≠ []) :
    (chunk.foldl embedByte s).placeComma ≠ 0 := by
  induction chunk generalizing s with
  | nil => exact absurd rfl h
  | cons b bs ih =>
    rw [List.foldl_cons]
    cases bs with
    | nil => exact embedByte_placeComma s b
    | cons c cs => exact ih _ (by simp)

theorem sepTokens_append (k : Nat) (as bs : List Nat) :
    sepTokens k (as ++ bs)
      = sepTokens k as ++ sepTokens (if as = [] then k else 1) bs := by
  induction as generalizing k with
  | nil => simp [sepTokens]
  | cons a as ih =>
    rw [List.cons_append, sepTokens, sepTokens, ih 1]
    by_cases h : as = [] <;> simp [h]

theorem embedLoop_readsOf (chunks : List (List Nat)) (s : EmbedState)
    (h : ∀ c ∈ chunks, c ≠ []) :
    ∃ t, embedLoop (readsOf chunks) s = .ok t
      ∧ t.outputFD = s.outputFD ++ sepTokens s.placeComma chunks.flatten := by
  induction chunks generalizing s with
  | nil => exact ⟨s, by simp [readsOf, embedLoop], by simp [sepTokens]⟩
  | cons c cs ih =>
    have hc : c ≠ [] := h c (by simp)
    have hlen : c.length ≠ 0 := by simpa using hc
    obtain ⟨t, ht, hout⟩ := ih (c.foldl embedByte s) (fun x hx => h x (by simp [hx]))
    refine ⟨t, ?_, ?_⟩
    · have : readsOf (c :: cs) = ReadResult.bytes c :: readsOf cs := by simp [readsOf]
      rw [this, embedLoop, if_neg hlen, ht]
    · rw [hout, foldl_embedByte_outputFD, List.flatten_cons, sepTokens_append, if_neg hc,
        sepTokens_of_ne_zero (foldl_embedByte_placeComma c s hc)]
      simp

theorem decToken_append_sepTokens (b : Nat) (bs : List Nat) :
    decToken b ++ sepTokens 1 bs = body (b :: bs) := by
  induction bs generalizing b with
  | nil => simp [sepTokens, body, List.intercalate]
  | cons c cs ih =>
    have h := ih c
    simp only [body, List.intercalate, List.map_cons, List.intersperse_cons₂,
      List.flatten_cons] at h ⊢
    rw [← h]
    simp [sepTokens]

theorem sepTokens_zero (bs : List Nat) : sepTokens 0 bs = body bs := by
  cases bs with
  | nil => simp [sepTokens, body, List.intercalate]
  | cons b bs => simpa [sepTokens] using decToken_append_sepTokens b bs

theorem cstr_asciz (p : List Char) (h : NUL ∉ p) : cstr (asciz p) = p := by
  unfold cstr asciz
  induction p with
  | nil => simp [List.takeWhile]
  | cons c cs ih =>
    have hc : c ≠ NUL := fun e => h (by simp [e])
    have hcs : NUL ∉ cs := fun e => h (by simp [e])
    simp [List.takeWhile_cons, hc, ih hcs]

theorem strlen_asciz (p : List Char) (h : NUL ∉ p) : strlen (asciz p) = p.length := by
  unfold strlen
  rw [cstr_asciz p h]

theorem take_asciz (p : List Char) : (asciz p).take p.length = p := by
  simp [asciz]

theorem toupper_of_lower (c : Char) (h : 97 ≤ c.toNat ∧ c.toNat ≤ 122) :
    isUpperLetter (toupper c) := by
  unfold toupper isUpperLetter
  rw [if_pos h]
  obtain ⟨h1, h2⟩ := h
  generalize c.toNat = n at h1 h2
  interval_cases n <;> decide

theorem toupper_of_not_lower (c : Char) (h : ¬ (97 ≤ c.toNat ∧ c.toNat ≤ 122)) :
    toupper c = c := by
  unfold toupper
  rw [if_neg h]

theorem toupper_ne_NUL (c : Char) (h : c ≠ NUL) : toupper c ≠ NUL := by
  by_cases hl : 97 ≤ c.toNat ∧ c.toNat ≤ 122
  · have hu := toupper_of_lower c hl
    intro e
    rw [e] at hu
    exact absurd hu (by decide)
  · rw [toupper_of_not_lower c hl]; exact h

theorem EmbedSource_readsOf (outputFD : List Char) (chunks : List (List Nat))
    (definitionStr : List Char) (definitionSize : Nat) (byteStr : Nat → Char)
    (h : ∀ c ∈ chunks, c ≠ []) :
    EmbedSource outputFD (readsOf chunks) definitionStr definitionSize byteStr
      = .ok (outputFD ++ "#define ".toList ++ definitionStr.take definitionSize ++ " ".toList
          ++ body chunks.flatten ++ "\n\n".toList) := by
  obtain ⟨t, ht, hout⟩ := embedLoop_readsOf chunks
    { outputFD := write (write (write outputFD "#define ".toList 8) definitionStr definitionSize)
        " ".toList 1
      placeComma := 0
      byteStr := byteStr } h
  unfold EmbedSource
  simp only [ht, hout, sepTokens_zero]
  simp [write]

theorem writeDocument_readsOf (chunks : List (List Nat)) (G M : List Char)
    (byteStr : Nat → Char) (hG : NUL ∉ G) (hM : NUL ∉ M) (h : ∀ c ∈ chunks, c ≠ []) :
    writeDocument [] (readsOf chunks) (asciz G) (strlen (asciz G)) (asciz M) byteStr
      = .ok ("#ifndef ".toList ++ G ++ "\n#define ".toList ++ G ++ "\n\n".toList
          ++ "#define ".toList ++ M ++ " ".toList ++ body chunks.flatten ++ "\n\n".toList
          ++ "#endif".toList) := by
  unfold writeDocument
  simp only [EmbedSource_readsOf _ _ _ _ _ h, strlen_asciz _ hG, strlen_asciz _ hM]
  simp [WriteIncludeGuardHeader, WriteIncludeGuardFooter, write, take_asciz]

theorem GenerateHeaderName_asciz (flag : Nat) (p : List Char) (h : NUL ∉ p) :
    (GenerateHeaderName flag (asciz p) (strlen (asciz p))).1
      = asciz (p.map (fun c => if c = '.' ∨ c = '/' then '_' else c) ++ ".h".toList) := by
  simp only [GenerateHeaderName]
  rw [strlen_asciz p h, take_asciz]
  simp [asciz]

theorem headerChars_ne_NUL (p : List Char) (h : NUL ∉ p) :
    NUL ∉ p.map (fun c => if c = '.' ∨ c = '/' then '_' else c) ++ ".h".toList := by
  intro hmem
  rcases List.mem_append.1 hmem with hm | hm
  · obtain ⟨x, hx, hxe⟩ := List.mem_map.1 hm
    by_cases hd : x = '.' ∨ x = '/'
    · rw [if_pos hd] at hxe; exact absurd hxe (by decide)
    · rw [if_neg hd] at hxe; exact h (hxe ▸ hx)
  · exact absurd hm (by decide)

theorem GenerateDefinitionName_asciz (flag : Nat) (p : List Char) (h : NUL ∉ p) :
    (GenerateDefinitionName flag (asciz p) (strlen (asciz p))).1
      = asciz ("EMBED_".toList
          ++ p.map (fun c => if c = '.' ∨ c = '/' then '_' else toupper c)) := by
  simp only [GenerateDefinitionName]
  rw [strlen_asciz p h, take_asciz]
  simp [asciz]

theorem definitionChars_ne_NUL (p : List Char) (h : NUL ∉ p) :
    NUL ∉ "EMBED_".toList ++ p.map (fun c => if c = '.' ∨ c = '/' then '_' else toupper c) := by
  intro hmem
  rcases List.mem_append.1 hmem with hm | hm
  · exact absurd hm (by decide)
  · obtain ⟨x, hx, hxe⟩ := List.mem_map.1 hm
    by_cases hd : x = '.' ∨ x = '/'
    · rw [if_pos hd] at hxe; exact absurd hxe (by decide)
    · rw [if_neg hd] at hxe
      exact toupper_ne_NUL x (fun e => h (e ▸ hx)) hxe

theorem igBegin_le (header : List Char) (n : Nat) : igBegin header n ≤ n := by
  induction n with
  | zero => simp [igBegin]
  | succ n ih =>
    unfold igBegin
    split_ifs
    · omega
    · omega

theorem drop_igBegin (header : List Char) (n : Nat) (hn : n ≤ header.length) :
    (header.take n).drop (igBegin header n) = lastComponent (header.take n) := by
  induction n with
  | zero => simp [igBegin, lastComponent]
  | succ n ih =>
    have hlt : n < header.length := hn
    have htake : header.take (n + 1) = header.take n ++ [header.getD n NUL] := by
      rw [List.take_succ, List.getD_eq_getElem?_getD, List.getElem?_eq_getElem hlt]
      simp
    have hlen : (header.take n).length = n := by simp; omega
    unfold igBegin
    by_cases hc : header.getD n NUL = '/'
    · rw [if_neg (by simpa using hc), htake, hc]
      simp [lastComponent, hlen]
    · rw [if_pos hc, htake, List.drop_append_of_le_length (by rw [hlen]; exact igBegin_le _ _),
        ih (by omega)]
      have hc2 : (header.getD n NUL != '/') = true := by simpa using hc
      simp only [lastComponent, List.reverse_append, List.reverse_cons, List.reverse_nil,
        List.nil_append, List.singleton_append, List.takeWhile_cons, hc2, if_true]

theorem GenerateIGName_asciz (h : List Char) :
    GenerateIGName (asciz h) h.length
      = asciz ((lastComponent h).map (fun c => if c = '.' then '_' else toupper c)) := by
  have hdrop := drop_igBegin (asciz h) h.length (by simp [asciz])
  rw [take_asciz] at hdrop
  have hle := igBegin_le (asciz h) h.length
  have hlen : (lastComponent h).length = h.length - igBegin (asciz h) h.length := by
    rw [← hdrop]; simp
  have hd : (asciz h).drop (igBegin (asciz h) h.length) = lastComponent h ++ [NUL] := by
    show List.drop _ (h ++ [NUL]) = _
    rw [List.drop_append_of_le_length hle, hdrop]
  have ht : (lastComponent h ++ [NUL]).take ((lastComponent h).length + 1)
      = lastComponent h ++ [NUL] := by
    apply List.take_of_length_le; simp
  simp only [GenerateIGName]
  rw [hd, ← hlen, ht, List.take_left, List.drop_left]
  rfl

theorem lastComponent_no_slash (h : List Char) : '/' ∉ lastComponent h := by
  unfold lastComponent
  intro hm
  rw [List.mem_reverse] at hm
  have := List.mem_takeWhile_imp hm
  simp at this

theorem igChars_ne_NUL (h : List Char) (hn : NUL ∉ h) :
    NUL ∉ (lastComponent h).map (fun c => if c = '.' then '_' else toupper c) := by
  intro hmem
  obtain ⟨x, hx, hxe⟩ := List.mem_map.1 hmem
  have hxh : x ∈ h := by
    unfold lastComponent at hx
    rw [List.mem_reverse] at hx
    exact List.mem_reverse.1 ((List.takeWhile_sublist _).subset hx)
  by_cases hd : x = '.'
  · rw [if_pos hd] at hxe; exact absurd hxe (by decide)
  · rw [if_neg hd] at hxe
    exact toupper_ne_NUL x (fun e => hn (e ▸ hxh)) hxe

theorem lastComponent_split (h : List Char) :
    ∃ pre, h = pre ++ lastComponent h ∧ (pre = [] ∨ pre.getLast? = some '/') := by
  refine ⟨(h.reverse.dropWhile (fun c => c != '/')).reverse, ?_, ?_⟩
  · unfold lastComponent
    rw [← List.reverse_append, List.takeWhile_append_dropWhile, List.reverse_reverse]
  · rw [List.getLast?_reverse]
    have hnot := List.head?_dropWhile_not (fun c => c != '/') h.reverse
    cases hd : (h.reverse.dropWhile (fun c => c != '/')) with
    | nil => left; rfl
    | cons x xs =>
      right
      rw [hd] at hnot
      simp at hnot
      simp [hnot]

theorem openOutput_fresh (replaceFlag : Nat) (h : replaceFlag = O_EXCL ∨ replaceFlag = 0) :
    openOutput none (O_WRONLY ||| O_CREAT ||| O_TRUNC ||| replaceFlag) = some [] := by
  rcases h with h | h <;> subst h <;> decide

theorem mainRun_fresh (a : Options) (sourcePath strerror : List Char)
    (reads : List ReadResult) (byteStr : Nat → Char)
    (h : a.replaceFlag = O_EXCL ∨ a.replaceFlag = 0) :
    mainRun a sourcePath
        { sourceFD := some reads, dest := none, byteStr := byteStr, strerror := strerror }
      = match writeDocument [] reads
            (resolveNames 0 a.output a.definition sourcePath).includeGuard
            (resolveNames 0 a.output a.definition sourcePath).IGSize
            (resolveNames 0 a.output a.definition sourcePath).definition byteStr with
        | .error written =>
          { status := EXIT_FAILURE, stderr := ErrorExit strerror,
            output := some (resolveNames 0 a.output a.definition sourcePath).output,
            dest := some written }
        | .ok written =>
          { status := 0, stderr := [],
            output := some (resolveNames 0 a.output a.definition sourcePath).output,
            dest := some written } := by
  unfold mainRun
  simp only [openOutput_fresh a.replaceFlag h]

theorem toupper_eq_dot (c : Char) (h : toupper c = '.') : c = '.' := by
  by_cases hl : 97 ≤ c.toNat ∧ c.toNat ≤ 122
  · have hu := toupper_of_lower c hl
    rw [h] at hu
    exact absurd hu (by decide)
  · rw [toupper_of_not_lower c hl] at h; exact h

theorem toupper_eq_slash (c : Char) (h : toupper c = '/') : c = '/' := by
  by_cases hl : 97 ≤ c.toNat ∧ c.toNat ≤ 122
  · have hu := toupper_of_lower c hl
    rw [h] at hu
    exact absurd hu (by decide)
  · rw [toupper_of_not_lower c hl] at h; exact h

theorem EmbedSource_empty (outputFD definitionStr : List Char) (definitionSize : Nat)
    (rest : List ReadResult) (byteStr : Nat → Char) :
    EmbedSource outputFD (ReadResult.bytes [] :: rest) definitionStr definitionSize byteStr
      = .ok (outputFD ++ "#define ".toList ++ definitionStr.take definitionSize
          ++ " \n\n".toList) := by
  simp [EmbedSource, embedLoop, write]

theorem foldlM_parseOption_replaceFlag (opts : List GetoptResult) (a b : Options)
    (h : opts.foldlM parseOption a = some b) :
    b.replaceFlag = if GetoptResult.f ∈ opts then 0 else a.replaceFlag := by
  induction opts generalizing a with
  | nil =>
    have hab : a = b := by simpa [List.foldlM] using h
    simp [hab]
  | cons x xs ih =>
    rw [List.foldlM_cons] at h
    cases x with
    | o optarg =>
      have h2 := ih _ (by simpa [parseOption] using h)
      simpa using h2
    | d optarg =>
      have h2 := ih _ (by simpa [parseOption] using h)
      simpa using h2
    | f =>
      have h2 := ih _ (by simpa [parseOption] using h)
      simp at h2
      simp [h2]
    | unknown => simp [parseOption] at h

theorem main_eq_mainRun (progName sourcePath : List Char) (opts : List GetoptResult)
    (a : Options) (env : Env)
    (h : opts.foldlM parseOption { output := none, definition := none, replaceFlag := O_EXCL }
      = some a) :
    main progName opts [sourcePath] env = mainRun a sourcePath env := by
  unfold main
  rw [h]

theorem openOutput_existing_excl (old : List Char) :
    openOutput (some old) (O_WRONLY ||| O_CREAT ||| O_TRUNC ||| O_EXCL) = none := by
  have h1 : (O_WRONLY ||| O_CREAT ||| O_TRUNC ||| O_EXCL) &&& O_CREAT ≠ 0 := by decide
  have h2 : (O_WRONLY ||| O_CREAT ||| O_TRUNC ||| O_EXCL) &&& O_EXCL ≠ 0 := by decide
  unfold openOutput
  simp only [if_pos (And.intro h1 h2)]

theorem openOutput_existing_force (old : List Char) :
    openOutput (some old) (O_WRONLY ||| O_CREAT ||| O_TRUNC ||| 0) = some [] := by
  have h2 : ¬ ((O_WRONLY ||| O_CREAT ||| O_TRUNC ||| 0) &&& O_CREAT ≠ 0
      ∧ (O_WRONLY ||| O_CREAT ||| O_TRUNC ||| 0) &&& O_EXCL ≠ 0) := by decide
  have h3 : (O_WRONLY ||| O_CREAT ||| O_TRUNC ||| 0) &&& O_TRUNC ≠ 0 := by decide
  unfold openOutput
  simp only [if_neg h2, if_pos h3]

theorem mainRun_existing_excl (a : Options) (sourcePath old : List Char) (env : Env)
    (hflag : a.replaceFlag = O_EXCL) (hdest : env.dest = some old) :
    (mainRun a sourcePath env).status = EXIT_FAILURE
      ∧ (mainRun a sourcePath env).stderr = ErrorExit env.strerror
      ∧ (mainRun a sourcePath env).dest = some old := by
  unfold mainRun
  rw [hdest, hflag, openOutput_existing_excl]
  cases env.sourceFD <;> exact ⟨rfl, rfl, rfl⟩

theorem mainRun_existing_force (a : Options) (sourcePath old : List Char) (env : Env)
    (hflag : a.replaceFlag = 0) (hdest : env.dest = some old) :
    mainRun a sourcePath env
      = match env.sourceFD with
        | none =>
          { status := EXIT_FAILURE, stderr := ErrorExit env.strerror, output := none,
            dest := some old }
        | some sourceFD =>
          match writeDocument [] sourceFD
              (resolveNames 0 a.output a.definition sourcePath).includeGuard
              (resolveNames 0 a.output a.definition sourcePath).IGSize
              (resolveNames 0 a.output a.definition sourcePath).definition env.byteStr with
          | .error written =>
            { status := EXIT_FAILURE, stderr := ErrorExit env.strerror,
              output := some (resolveNames 0 a.output a.definition sourcePath).output,
              dest := some written }
          | .ok written =>
            { status := 0, stderr := [],
              output := some (resolveNames 0 a.output a.definition sourcePath).output,
              dest := some written } := by
  unfold mainRun
  rw [hdest, hflag, openOutput_existing_force]

theorem UsageError_asciz (prog : List Char) (h : NUL ∉ prog) :
    UsageError (asciz prog)
      = "Usage: ".toList ++ prog ++ "[-o output] [-d define] [-f] filename\n".toList := by
  have h1 : strlen (asciz "Usage: ".toList) = 7 := by decide
  have h2 : strlen (asciz "[-o output] [-d define] [-f] filename\n".toList) = 38 := by decide
  unfold UsageError ERRLOG
  simp only [List.foldl, write, h1, h2, strlen_asciz prog h, take_asciz]
  rfl

set_option maxRecDepth 100000 in
theorem decToken_canonical_iff :
    ∀ b, b < 256 → (decToken b = Nat.toDigits 10 b ↔ (b < 100 ∨ 10 ≤ b % 100)) := by
  decide

set_option maxRecDepth 100000 in
theorem decToken_collapsed :
    ∀ b, b < 256 → ¬ (b < 100 ∨ 10 ≤ b % 100) →
      ((100 ≤ b ∧ b ≤ 109) ∨ (200 ≤ b ∧ b ≤ 209))
        ∧ decToken b = [numerals.getD (b / 100) NUL, numerals.getD (b % 10) NUL]
        ∧ decToken b = Nat.toDigits 10 (10 * (b / 100) + b % 10)
        ∧ decToken b = decToken (10 * (b / 100) + b % 10)
        ∧ 10 * (b / 100) + b % 10 ≠ b
        ∧ 10 * (b / 100) + b % 10 < 256 := by
  decide

set_option maxRecDepth 100000 in
theorem decToken_digits : ∀ b, b < 256 → ∀ c ∈ decToken b, isDigitChar c := by
  decide


theorem mem_sepTokens (k : Nat) (bs : List Nat) (c : Char) (h : c ∈ sepTokens k bs) :
    c = ',' ∨ ∃ b ∈ bs, c ∈ decToken b := by
  induction bs generalizing k with
  | nil => simp [sepTokens] at h
  | cons b bs ih =>
    simp only [sepTokens, List.mem_append] at h
    rcases h with (h | h) | h
    · left
      split_ifs at h <;> simp_all
    · exact Or.inr ⟨b, by simp, h⟩
    · rcases ih 1 h with h2 | ⟨x, hx, hc⟩
      · exact Or.inl h2
      · exact Or.inr ⟨x, by simp [hx], hc⟩

theorem ByteToDecString_frame (ptr : Nat → Char) (b i : Nat)
    (h : (ByteToDecString ptr b).2 ≤ i) : (ByteToDecString ptr b).1 i = ptr i := by
  unfold ByteToDecString at h ⊢
  dsimp only at h ⊢
  rw [Function.update_apply]
  by_cases h1 : b / 100 % 256 ≠ 0 <;> by_cases h2 : b % 100 / 10 % 256 ≠ 0
  all_goals simp only [h1, h2, if_true, if_false, not_true_eq_false, not_false_eq_true,
    ne_eq, Function.update_apply] at h ⊢
  all_goals split_ifs <;> first | rfl | omega

theorem one_le_count (ptr : Nat → Char) (b : Nat) : 1 ≤ (ByteToDecString ptr b).2 := by
  unfold ByteToDecString
  simp

theorem embedByte_byteStr_frame (s : EmbedState) (b i : Nat) (h : 3 ≤ i) :
    (embedByte s b).byteStr i = s.byteStr i := by
  unfold embedByte
  exact ByteToDecString_frame s.byteStr b i (Nat.le_trans (count_le_three _ _) h)

theorem foldl_embedByte_byteStr_frame (chunk : List Nat) (s : EmbedState) (i : Nat)
    (h : 3 ≤ i) : (chunk.foldl embedByte s).byteStr i = s.byteStr i := by
  induction chunk generalizing s with
  | nil => rfl
  | cons b bs ih => rw [List.foldl_cons, ih, embedByte_byteStr_frame s b i h]

theorem lastComponent_of_no_slash (h : List Char) (hs : '/' ∉ h) : lastComponent h = h := by
  unfold lastComponent
  have : h.reverse.takeWhile (fun c => c != '/') = h.reverse := by
    rw [List.takeWhile_eq_self_iff]
    intro x hx
    have hx2 : x ∈ h := List.mem_reverse.1 hx
    have : x ≠ '/' := fun e => hs (e ▸ hx2)
    simpa using this
  rw [this, List.reverse_reverse]

theorem headerChars_no_slash (p : List Char) :
    '/' ∉ p.map (fun c => if c = '.' ∨ c = '/' then '_' else c) ++ ".h".toList := by
  intro hmem
  rcases List.mem_append.1 hmem with hm | hm
  · obtain ⟨x, _, hxe⟩ := List.mem_map.1 hm
    by_cases hd : x = '.' ∨ x = '/'
    · rw [if_pos hd] at hxe; exact absurd hxe (by decide)
    · rw [if_neg hd] at hxe; exact hd (Or.inr hxe)
  · exact absurd hm (by decide)

theorem map_guard_header (p : List Char) :
    (p.map (fun c => if c = '.' ∨ c = '/' then '_' else c) ++ ".h".toList).map
        (fun c => if c = '.' then '_' else toupper c)
      = stem p ++ "_H".toList := by
  rw [List.map_append, List.map_map]
  have h2 : ".h".toList.map (fun c => if c = '.' then '_' else toupper c) = "_H".toList := by
    decide
  rw [h2]
  congr 1
  unfold stem
  apply List.map_congr_left
  intro c _
  simp only [Function.comp]
  by_cases hd : c = '.' ∨ c = '/'
  · rw [if_pos hd, if_pos hd]; decide
  · rw [if_neg hd, if_neg hd, if_neg (fun e => hd (Or.inl e))]

theorem resolveNames_default (p : List Char) (hp : NUL ∉ p) :
    resolveNames 0 none none (asciz p)
      = { ownershipFlag := 3
          output := asciz (p.map (fun c => if c = '.' ∨ c = '/' then '_' else c) ++ ".h".toList)
          definition := asciz ("EMBED_".toList ++ stem p)
          includeGuard := asciz (stem p ++ "_H".toList)
          IGSize := (stem p).length + 2 } := by
  have hout : GenerateHeaderName 0 (asciz p) (strlen (asciz p))
      = (asciz (p.map (fun c => if c = '.' ∨ c = '/' then '_' else c) ++ ".h".toList), 1) :=
    Prod.ext (GenerateHeaderName_asciz 0 p hp) rfl
  have hdef : GenerateDefinitionName 1 (asciz p) (strlen (asciz p))
      = (asciz ("EMBED_".toList ++ stem p), 3) :=
    Prod.ext (GenerateDefinitionName_asciz 1 p hp) rfl
  have hnul := headerChars_ne_NUL p hp
  have hig : GenerateIGName
      (asciz (p.map (fun c => if c = '.' ∨ c = '/' then '_' else c) ++ ".h".toList))
      (strlen (asciz (p.map (fun c => if c = '.' ∨ c = '/' then '_' else c) ++ ".h".toList)))
      = asciz (stem p ++ "_H".toList) := by
    rw [strlen_asciz _ hnul, GenerateIGName_asciz,
      lastComponent_of_no_slash _ (headerChars_no_slash p), map_guard_header]
  have hnul2 : NUL ∉ stem p ++ "_H".toList := by
    have := igChars_ne_NUL _ hnul
    rwa [lastComponent_of_no_slash _ (headerChars_no_slash p), map_guard_header] at this
  simp only [resolveNames, hout, hdef, hig, strlen_asciz _ hnul2]
  simp

theorem lor_DEST_mod (flag : Nat) (h : flag < 256) :
    (flag ||| DEST_STR_OWNED) % 256 = flag ||| DEST_STR_OWNED :=
  Nat.mod_eq_of_lt (Nat.or_lt_two_pow (n := 8) h (by decide))

theorem lor_DEF_mod (flag : Nat) (h : flag < 256) :
    (flag ||| DEF_STR_OWNED) % 256 = flag ||| DEF_STR_OWNED :=
  Nat.mod_eq_of_lt (Nat.or_lt_two_pow (n := 8) h (by decide))

theorem testBit_DEST (i : Nat) : DEST_STR_OWNED.testBit i = decide (0 = i) := by
  have : DEST_STR_OWNED = 2 ^ 0 := by decide
  rw [this, Nat.testBit_two_pow]

theorem testBit_DEF (i : Nat) : DEF_STR_OWNED.testBit i = decide (1 = i) := by
  have : DEF_STR_OWNED = 2 ^ 1 := by decide
  rw [this, Nat.testBit_two_pow]

theorem resolveNames_flag_release (o d : Option (List Char)) (s : List Char) :
    ((resolveNames 0 o d s).ownershipFlag &&& DEST_STR_OWNED ≠ 0 ↔ o = none)
      ∧ ((resolveNames 0 o d s).ownershipFlag &&& DEF_STR_OWNED ≠ 0 ↔ d = none)
      ∧ release (resolveNames 0 o d s).ownershipFlag
        = { definition := d.isNone, output := o.isNone, ownershipFlag := 0 } := by
  cases o <;> cases d
  · have h : (resolveNames 0 none none s).ownershipFlag = 3 := by
      show ((0 ||| DEST_STR_OWNED) % 256 ||| DEF_STR_OWNED) % 256 = 3
      decide
    rw [h]; decide
  · rename_i y
    have h : (resolveNames 0 none (some y) s).ownershipFlag = 1 := by
      show (0 ||| DEST_STR_OWNED) % 256 = 1
      decide
    rw [h]; simp; decide
  · rename_i x
    have h : (resolveNames 0 (some x) none s).ownershipFlag = 2 := by
      show (0 ||| DEF_STR_OWNED) % 256 = 2
      decide
    rw [h]; simp; decide
  · rename_i x y
    have h : (resolveNames 0 (some x) (some y) s).ownershipFlag = 0 := rfl
    rw [h]; simp; decide

/-! ## The claims -/

/-- C1 (defect of the code): for the byte 105 `ByteToDecString` returns the
count 2 and stores the two characters "15", whatever the buffer held before,
whereas the decimal representation of 105 is the three digits "105". -/
theorem C1_ByteToDecString_105 (ptr : Nat → Char) :
    (ByteToDecString ptr 105).2 = 2
      ∧ bufTake (ByteToDecString ptr 105).1 (ByteToDecString ptr 105).2 = "15".toList
      ∧ Nat.toDigits 10 105 = "105".toList := by
  refine ⟨rfl, rfl, by decide⟩

/-- C2 (defect of the code): the sources [100] and [10] give the same macro
text, with body "10", so that no parser of the body recovers every byte
sequence. -/
theorem C2_roundtrip_fails :
    (∀ ptr, EmbedSource [] (readsOf [[100]]) (asciz "X".toList) 1 ptr
        = .ok "#define X 10\n\n".toList)
      ∧ (∀ ptr, EmbedSource [] (readsOf [[10]]) (asciz "X".toList) 1 ptr
        = .ok "#define X 10\n\n".toList)
      ∧ body [100] = body [10]
      ∧ ¬ ∃ parse : List Char → List Nat,
          ∀ bs : List Nat, (∀ b ∈ bs, b < 256) → parse (body bs) = bs := by
  refine ⟨fun _ => rfl, fun _ => rfl, by decide, ?_⟩
  rintro ⟨parse, hparse⟩
  have h1 := hparse [100] (by decide)
  have h2 := hparse [10] (by decide)
  have hb : body [100] = body [10] := by decide
  rw [hb, h2] at h1
  exact absurd h1 (by decide)

/-- C3: for a guard token `G` and a macro name `M` (C strings) and a source
`bs` read in any non-empty chunks of at most `READ_BUFFER_SIZE` bytes, the
three calls of `main` succeed and write, on a fresh descriptor, exactly
`#ifndef G\n#define G\n\n#define M body(bs)\n\n#endif`, a text that depends
on `G`, `M` and `bs` only. -/
theorem C3_document_layout (G M : List Char) (bs : List Nat) (chunks : List (List Nat))
    (byteStr : Nat → Char) (hG : NUL ∉ G) (hM : NUL ∉ M)
    (hchunks : ∀ c ∈ chunks, c ≠ [] ∧ c.length ≤ READ_BUFFER_SIZE)
    (hbs : chunks.flatten = bs) :
    writeDocument [] (readsOf chunks) (asciz G) (strlen (asciz G)) (asciz M) byteStr
      = .ok ("#ifndef ".toList ++ G ++ "\n#define ".toList ++ G ++ "\n\n".toList
          ++ "#define ".toList ++ M ++ " ".toList ++ body bs ++ "\n\n".toList
          ++ "#endif".toList) := by
  rw [← hbs]
  exact writeDocument_readsOf chunks G M byteStr hG hM (fun c hc => (hchunks c hc).1)

/-- Witness of C3: the source [0, 10, 255] read as [0, 10] then [255]. -/
theorem C3_document_layout_witness :
    (NUL ∉ "G_H".toList ∧ NUL ∉ "M".toList
        ∧ (∀ c ∈ [[0, 10], [255]], c ≠ [] ∧ c.length ≤ READ_BUFFER_SIZE)
        ∧ [[0, 10], [255]].flatten = [0, 10, 255])
      ∧ writeDocument [] (readsOf [[0, 10], [255]]) (asciz "G_H".toList)
          (strlen (asciz "G_H".toList)) (asciz "M".toList) (fun _ => NUL)
        = .ok ("#ifndef ".toList ++ "G_H".toList ++ "\n#define ".toList ++ "G_H".toList
            ++ "\n\n".toList ++ "#define ".toList ++ "M".toList ++ " ".toList
            ++ body [0, 10, 255] ++ "\n\n".toList ++ "#endif".toList) :=
  ⟨⟨by decide, by decide, by decide, by decide⟩,
    C3_document_layout "G_H".toList "M".toList [0, 10, 255] [[0, 10], [255]] (fun _ => NUL)
      (by decide) (by decide) (by decide) (by decide)⟩

/-- C4: however the reads split the source `bs` into non-empty chunks of at
most `READ_BUFFER_SIZE` bytes before the read of length zero, `EmbedSource`
succeeds and what it writes between the macro name and the final `\n\n` is
the list of the tokens of `bs`, in order, joined by single commas. -/
theorem C4_body_independent_of_chunking (bs : List Nat) (chunks : List (List Nat))
    (outputFD definitionStr : List Char) (definitionSize : Nat) (byteStr : Nat → Char)
    (hchunks : ∀ c ∈ chunks, c ≠ [] ∧ c.length ≤ READ_BUFFER_SIZE)
    (hbs : chunks.flatten = bs) :
    EmbedSource outputFD (readsOf chunks) definitionStr definitionSize byteStr
      = .ok (outputFD ++ "#define ".toList ++ definitionStr.take definitionSize ++ " ".toList
          ++ List.intercalate [','] (bs.map decToken) ++ "\n\n".toList) := by
  rw [← hbs]
  exact EmbedSource_readsOf outputFD chunks definitionStr definitionSize byteStr
    (fun c hc => (hchunks c hc).1)

/-- Witness of C4: the source [7, 42, 255, 0] read as [7], [42, 255], [0]. -/
theorem C4_body_independent_of_chunking_witness :
    ((∀ c ∈ [[7], [42, 255], [0]], c ≠ [] ∧ c.length ≤ READ_BUFFER_SIZE)
        ∧ [[7], [42, 255], [0]].flatten = [7, 42, 255, 0])
      ∧ EmbedSource [] (readsOf [[7], [42, 255], [0]]) (asciz "M".toList) 1 (fun _ => NUL)
        = .ok ([] ++ "#define ".toList ++ (asciz "M".toList).take 1 ++ " ".toList
            ++ List.intercalate [','] ([7, 42, 255, 0].map decToken) ++ "\n\n".toList) :=
  ⟨⟨by decide, by decide⟩,
    C4_body_independent_of_chunking [7, 42, 255, 0] [[7], [42, 255], [0]] []
      (asciz "M".toList) 1 (fun _ => NUL) (by decide) (by decide)⟩

/-- C5: for a header name `h` (a C string), `GenerateIGName` returns the C
string made of the substring of `h` after its last `/` (all of `h` when
there is none) with every `.` replaced by `_` and every other character
passed through `toupper`; its length is the length of that substring. -/
theorem C5_GenerateIGName (h : List Char) (hh : NUL ∉ h) :
    GenerateIGName (asciz h) (strlen (asciz h))
        = asciz ((lastComponent h).map (fun c => if c = '.' then '_' else toupper c))
      ∧ strlen (GenerateIGName (asciz h) (strlen (asciz h))) = (lastComponent h).length
      ∧ '/' ∉ lastComponent h
      ∧ ∃ pre, h = pre ++ lastComponent h ∧ (pre = [] ∨ pre.getLast? = some '/') := by
  rw [strlen_asciz h hh, GenerateIGName_asciz, strlen_asciz _ (igChars_ne_NUL h hh)]
  exact ⟨rfl, by simp, lastComponent_no_slash h, lastComponent_split h⟩

/-- Witness of C5: the header name `out/my.gen.h`. -/
theorem C5_GenerateIGName_witness :
    NUL ∉ "out/my.gen.h".toList
      ∧ (GenerateIGName (asciz "out/my.gen.h".toList) (strlen (asciz "out/my.gen.h".toList))
          = asciz ((lastComponent "out/my.gen.h".toList).map
              (fun c => if c = '.' then '_' else toupper c))
        ∧ strlen (GenerateIGName (asciz "out/my.gen.h".toList)
            (strlen (asciz "out/my.gen.h".toList))) = (lastComponent "out/my.gen.h".toList).length
        ∧ '/' ∉ lastComponent "out/my.gen.h".toList
        ∧ ∃ pre, "out/my.gen.h".toList = pre ++ lastComponent "out/my.gen.h".toList
            ∧ (pre = [] ∨ pre.getLast? = some '/')) :=
  ⟨by decide, C5_GenerateIGName "out/my.gen.h".toList (by decide)⟩

/-- C6: for a source path `p` (a C string), `GenerateHeaderName` returns the
C string `p` with every `.` and `/` replaced by `_` and the other characters
unchanged, followed by `.h`; its length is `len(p) + 2`. -/
theorem C6_GenerateHeaderName (ownershipFlag : Nat) (p : List Char) (hp : NUL ∉ p) :
    (GenerateHeaderName ownershipFlag (asciz p) (strlen (asciz p))).1
        = asciz (p.map (fun c => if c = '.' ∨ c = '/' then '_' else c) ++ ".h".toList)
      ∧ strlen (GenerateHeaderName ownershipFlag (asciz p) (strlen (asciz p))).1
        = p.length + 2 := by
  rw [GenerateHeaderName_asciz _ p hp, strlen_asciz _ (headerChars_ne_NUL p hp)]
  exact ⟨rfl, by simp⟩

/-- Witness of C6: the source path `dir/a.b.txt`. -/
theorem C6_GenerateHeaderName_witness :
    NUL ∉ "dir/a.b.txt".toList
      ∧ ((GenerateHeaderName 0 (asciz "dir/a.b.txt".toList)
            (strlen (asciz "dir/a.b.txt".toList))).1
          = asciz ("dir/a.b.txt".toList.map (fun c => if c = '.' ∨ c = '/' then '_' else c)
              ++ ".h".toList)
        ∧ strlen (GenerateHeaderName 0 (asciz "dir/a.b.txt".toList)
            (strlen (asciz "dir/a.b.txt".toList))).1 = "dir/a.b.txt".toList.length + 2) :=
  ⟨by decide, C6_GenerateHeaderName 0 "dir/a.b.txt".toList (by decide)⟩

/-- C7: for a source path `p` (a C string), `GenerateDefinitionName` returns
the C string `EMBED_` followed by `p` mapped character by character, `.` and
`/` to `_` and every other character `c` to `toupper(c)`, which leaves
characters other than `a`..`z` unchanged; the name starts with `EMBED_` and
its length is `6 + len(p)`. -/
theorem C7_GenerateDefinitionName (ownershipFlag : Nat) (p : List Char) (hp : NUL ∉ p) :
    (GenerateDefinitionName ownershipFlag (asciz p) (strlen (asciz p))).1
        = asciz ("EMBED_".toList
            ++ p.map (fun c => if c = '.' ∨ c = '/' then '_' else toupper c))
      ∧ (cstr (GenerateDefinitionName ownershipFlag (asciz p) (strlen (asciz p))).1).take 6
        = "EMBED_".toList
      ∧ strlen (GenerateDefinitionName ownershipFlag (asciz p) (strlen (asciz p))).1
        = 6 + p.length
      ∧ ∀ c : Char, ¬ (97 ≤ c.toNat ∧ c.toNat ≤ 122) → toupper c = c := by
  rw [GenerateDefinitionName_asciz _ p hp]
  unfold strlen
  rw [cstr_asciz _ (definitionChars_ne_NUL p hp)]
  refine ⟨rfl, by simp, ?_, toupper_of_not_lower⟩
  simp
  omega

/-- Witness of C7: the source path `dir/a-1.txt`. -/
theorem C7_GenerateDefinitionName_witness :
    NUL ∉ "dir/a-1.txt".toList
      ∧ ((GenerateDefinitionName 0 (asciz "dir/a-1.txt".toList)
            (strlen (asciz "dir/a-1.txt".toList))).1
          = asciz ("EMBED_".toList ++ "dir/a-1.txt".toList.map
              (fun c => if c = '.' ∨ c = '/' then '_' else toupper c))
        ∧ (cstr (GenerateDefinitionName 0 (asciz "dir/a-1.txt".toList)
            (strlen (asciz "dir/a-1.txt".toList))).1).take 6 = "EMBED_".toList
        ∧ strlen (GenerateDefinitionName 0 (asciz "dir/a-1.txt".toList)
            (strlen (asciz "dir/a-1.txt".toList))).1 = 6 + "dir/a-1.txt".toList.length
        ∧ ∀ c : Char, ¬ (97 ≤ c.toNat ∧ c.toNat ≤ 122) → toupper c = c) :=
  ⟨by decide, C7_GenerateDefinitionName 0 "dir/a-1.txt".toList (by decide)⟩

/-- C8 as stated fails: for the source path `a1` the macro name is
`EMBED_A1`, and the character `1` after the prefix is neither an upper-case
letter nor `_`. -/
theorem C8_counterexample :
    ¬ ∀ c ∈ (cstr (GenerateDefinitionName 0 (asciz "a1".toList)
        (strlen (asciz "a1".toList))).1).drop 6, isUpperLetter c ∨ c = '_' := by
  decide

/-- C8 amended: every character of `GenerateDefinitionName(p)` after the
prefix `EMBED_` is an upper-case letter or `_`, or is a character of `p`
that is not a letter, `.` or `/` and was kept unchanged. -/
theorem C8_definition_chars (ownershipFlag : Nat) (p : List Char) (hp : NUL ∉ p) :
    ∀ c ∈ (cstr (GenerateDefinitionName ownershipFlag (asciz p) (strlen (asciz p))).1).drop 6,
      isUpperLetter c ∨ c = '_' ∨ (c ∈ p ∧ ¬ isLetter c ∧ c ≠ '.' ∧ c ≠ '/') := by
  intro c hc
  rw [GenerateDefinitionName_asciz _ p hp, cstr_asciz _ (definitionChars_ne_NUL p hp)] at hc
  have hdrop : ("EMBED_".toList
      ++ p.map (fun c => if c = '.' ∨ c = '/' then '_' else toupper c)).drop 6
      = p.map (fun c => if c = '.' ∨ c = '/' then '_' else toupper c) := rfl
  rw [hdrop] at hc
  obtain ⟨x, hx, hxe⟩ := List.mem_map.1 hc
  by_cases hd : x = '.' ∨ x = '/'
  · rw [if_pos hd] at hxe
    exact Or.inr (Or.inl hxe.symm)
  · rw [if_neg hd] at hxe
    by_cases hl : 97 ≤ x.toNat ∧ x.toNat ≤ 122
    · exact Or.inl (hxe ▸ toupper_of_lower x hl)
    · rw [toupper_of_not_lower x hl] at hxe
      subst hxe
      by_cases hu : 65 ≤ x.toNat ∧ x.toNat ≤ 90
      · exact Or.inl hu
      · refine Or.inr (Or.inr ⟨hx, ?_, fun e => hd (Or.inl e), fun e => hd (Or.inr e)⟩)
        unfold isLetter
        tauto

/-- Witness of C8 amended: the source path `a1.B/c-d`. -/
theorem C8_definition_chars_witness :
    NUL ∉ "a1.B/c-d".toList
      ∧ ∀ c ∈ (cstr (GenerateDefinitionName 0 (asciz "a1.B/c-d".toList)
          (strlen (asciz "a1.B/c-d".toList))).1).drop 6,
        isUpperLetter c ∨ c = '_'
          ∨ (c ∈ "a1.B/c-d".toList ∧ ¬ isLetter c ∧ c ≠ '.' ∧ c ≠ '/') :=
  ⟨by decide, C8_definition_chars 0 "a1.B/c-d".toList (by decide)⟩

/-- C9: with `-o o` and `-d d`, in either order, for every source path `s`
the names `main` uses are the output name `o`, the macro name `d` and the
guard token `GenerateIGName(o)`: these are what `resolveNames` returns, the
ownership flag being left as it was, and what `main` passes to `open` and to
the writing functions, so that the run does not depend on `s`.  For the
source `a.txt` holding the byte 65 with `-o out/gen.h -d MY_DATA` the guard
token is `GEN_H` and the file `out/gen.h` receives the line
`#define MY_DATA 65`. -/
theorem C9_overrides :
    (∀ (ownershipFlag : Nat) (o d s : List Char),
        resolveNames ownershipFlag (some o) (some d) s
          = { ownershipFlag := ownershipFlag
              output := o
              definition := d
              includeGuard := GenerateIGName o (strlen o)
              IGSize := strlen (GenerateIGName o (strlen o)) })
      ∧ (∀ (progName o d s strerror : List Char) (reads : List ReadResult)
          (byteStr : Nat → Char),
          main progName [.o o, .d d] [s]
              { sourceFD := some reads, dest := none, byteStr := byteStr, strerror := strerror }
            = match writeDocument [] reads (GenerateIGName o (strlen o))
                (strlen (GenerateIGName o (strlen o))) d byteStr with
              | .error written =>
                { status := EXIT_FAILURE, stderr := ErrorExit strerror, output := some o,
                  dest := some written }
              | .ok written =>
                { status := 0, stderr := [], output := some o, dest := some written })
      ∧ (∀ (progName o d s t : List Char) (env : Env),
          main progName [.o o, .d d] [s] env = main progName [.o o, .d d] [t] env
            ∧ main progName [.d d, .o o] [s] env = main progName [.o o, .d d] [s] env)
      ∧ GenerateIGName (asciz "out/gen.h".toList) (strlen (asciz "out/gen.h".toList))
          = asciz "GEN_H".toList
      ∧ (∀ (progName strerror : List Char) (byteStr : Nat → Char),
          main progName [.o (asciz "out/gen.h".toList), .d (asciz "MY_DATA".toList)]
              [asciz "a.txt".toList]
              { sourceFD := some (readsOf [[65]]), dest := none, byteStr := byteStr,
                strerror := strerror }
            = { status := 0
                stderr := []
                output := some (asciz "out/gen.h".toList)
                dest := some
                  "#ifndef GEN_H\n#define GEN_H\n\n#define MY_DATA 65\n\n#endif".toList }) := by
  refine ⟨fun _ _ _ _ => rfl, ?_, fun _ _ _ _ _ _ => ⟨rfl, rfl⟩, by decide, fun _ _ _ => rfl⟩
  intro progName o d s strerror reads byteStr
  have hmain : main progName [.o o, .d d] [s]
      { sourceFD := some reads, dest := none, byteStr := byteStr, strerror := strerror }
      = mainRun { output := some o, definition := some d, replaceFlag := O_EXCL } s
          { sourceFD := some reads, dest := none, byteStr := byteStr, strerror := strerror } :=
    rfl
  rw [hmain, mainRun_fresh _ _ _ _ _ (Or.inl rfl)]
  show (match writeDocument [] reads (GenerateIGName o (strlen o))
      (strlen (GenerateIGName o (strlen o))) d byteStr with
    | .error written =>
      ({ status := EXIT_FAILURE, stderr := ErrorExit strerror, output := some o,
         dest := some written } : Outcome)
    | .ok written => { status := 0, stderr := [], output := some o, dest := some written })
    = _
  cases writeDocument [] reads (GenerateIGName o (strlen o))
    (strlen (GenerateIGName o (strlen o))) d byteStr <;> rfl

/-- C10: with no option, the source path `img.bin` and the content
[0, 10, 255] read in any non-empty chunks of at most `READ_BUFFER_SIZE`
bytes, on a destination that does not exist yet, the run succeeds, the
output file is `img_bin.h` and it receives exactly
`#ifndef IMG_BIN_H\n#define IMG_BIN_H\n\n#define EMBED_IMG_BIN 0,10,255\n\n#endif`. -/
theorem C10_img_bin (progName strerror : List Char) (byteStr : Nat → Char)
    (chunks : List (List Nat))
    (hchunks : ∀ c ∈ chunks, c ≠ [] ∧ c.length ≤ READ_BUFFER_SIZE)
    (hbs : chunks.flatten = [0, 10, 255]) :
    main progName [] [asciz "img.bin".toList]
        { sourceFD := some (readsOf chunks), dest := none, byteStr := byteStr,
          strerror := strerror }
      = { status := 0
          stderr := []
          output := some (asciz "img_bin.h".toList)
          dest := some
            "#ifndef IMG_BIN_H\n#define IMG_BIN_H\n\n#define EMBED_IMG_BIN 0,10,255\n\n#endif".toList } := by
  have hnames : resolveNames 0 none none (asciz "img.bin".toList)
      = { ownershipFlag := 3
          output := asciz "img_bin.h".toList
          definition := asciz "EMBED_IMG_BIN".toList
          includeGuard := asciz "IMG_BIN_H".toList
          IGSize := 9 } := by decide
  have hdoc := writeDocument_readsOf chunks "IMG_BIN_H".toList "EMBED_IMG_BIN".toList byteStr
    (by decide) (by decide) (fun c hc => (hchunks c hc).1)
  rw [hbs, show strlen (asciz "IMG_BIN_H".toList) = 9 by decide] at hdoc
  have hbody : body [0, 10, 255] = "0,10,255".toList := by decide
  rw [hbody] at hdoc
  have hmain : main progName [] [asciz "img.bin".toList]
      { sourceFD := some (readsOf chunks), dest := none, byteStr := byteStr,
        strerror := strerror }
      = mainRun { output := none, definition := none, replaceFlag := O_EXCL }
          (asciz "img.bin".toList)
          { sourceFD := some (readsOf chunks), dest := none, byteStr := byteStr,
            strerror := strerror } := rfl
  rw [hmain, mainRun_fresh _ _ _ _ _ (Or.inl rfl), hnames]
  simp only [hdoc]
  rfl

/-- Witness of C10: the content read as [0] then [10, 255]. -/
theorem C10_img_bin_witness :
    ((∀ c ∈ [[0], [10, 255]], c ≠ [] ∧ c.length ≤ READ_BUFFER_SIZE)
        ∧ [[0], [10, 255]].flatten = [0, 10, 255])
      ∧ main (asciz "embed".toList) [] [asciz "img.bin".toList]
          { sourceFD := some (readsOf [[0], [10, 255]]), dest := none, byteStr := fun _ => NUL,
            strerror := asciz "".toList }
        = { status := 0
            stderr := []
            output := some (asciz "img_bin.h".toList)
            dest := some
              "#ifndef IMG_BIN_H\n#define IMG_BIN_H\n\n#define EMBED_IMG_BIN 0,10,255\n\n#endif".toList } :=
  ⟨⟨by decide, by decide⟩,
    C10_img_bin (asciz "embed".toList) (asciz "".toList) (fun _ => NUL) [[0], [10, 255]]
      (by decide) (by decide)⟩

/-- C11: for every macro name `M` (a C string), when the first read returns
0 bytes `EmbedSource` succeeds and writes exactly `#define M \n\n`, with
neither a token nor a comma between the space and the two newlines; this
holds whatever the later reads would return, and also when no read result
is listed at all. -/
theorem C11_empty_source (M outputFD : List Char) (rest : List ReadResult)
    (byteStr : Nat → Char) (hM : NUL ∉ M) :
    EmbedSource outputFD (ReadResult.bytes [] :: rest) (asciz M) (strlen (asciz M)) byteStr
        = .ok (outputFD ++ "#define ".toList ++ M ++ " \n\n".toList)
      ∧ EmbedSource outputFD [] (asciz M) (strlen (asciz M)) byteStr
        = .ok (outputFD ++ "#define ".toList ++ M ++ " \n\n".toList) := by
  rw [strlen_asciz M hM]
  constructor
  · rw [EmbedSource_empty, take_asciz]
  · simp [EmbedSource, embedLoop, write, take_asciz]

/-- Witness of C11: the macro name `EMBED_A_TXT` on a fresh descriptor. -/
theorem C11_empty_source_witness :
    NUL ∉ "EMBED_A_TXT".toList
      ∧ (EmbedSource [] (ReadResult.bytes [] :: []) (asciz "EMBED_A_TXT".toList)
            (strlen (asciz "EMBED_A_TXT".toList)) (fun _ => NUL)
          = .ok ([] ++ "#define ".toList ++ "EMBED_A_TXT".toList ++ " \n\n".toList)
        ∧ EmbedSource [] [] (asciz "EMBED_A_TXT".toList)
            (strlen (asciz "EMBED_A_TXT".toList)) (fun _ => NUL)
          = .ok ([] ++ "#define ".toList ++ "EMBED_A_TXT".toList ++ " \n\n".toList)) :=
  ⟨by decide, C11_empty_source "EMBED_A_TXT".toList [] [] (fun _ => NUL) (by decide)⟩

/-- C12: for every header name `h` (a C string), the token that
`GenerateIGName` returns contains neither `/` nor `.`. -/
theorem C12_guard_chars (h : List Char) (hh : NUL ∉ h) :
    '/' ∉ cstr (GenerateIGName (asciz h) (strlen (asciz h)))
      ∧ '.' ∉ cstr (GenerateIGName (asciz h) (strlen (asciz h))) := by
  rw [strlen_asciz h hh, GenerateIGName_asciz, cstr_asciz _ (igChars_ne_NUL h hh)]
  constructor
  · intro hmem
    obtain ⟨x, hx, hxe⟩ := List.mem_map.1 hmem
    by_cases hd : x = '.'
    · rw [if_pos hd] at hxe; exact absurd hxe (by decide)
    · rw [if_neg hd] at hxe
      exact lastComponent_no_slash h (toupper_eq_slash x hxe ▸ hx)
  · intro hmem
    obtain ⟨x, hx, hxe⟩ := List.mem_map.1 hmem
    by_cases hd : x = '.'
    · rw [if_pos hd] at hxe; exact absurd hxe (by decide)
    · rw [if_neg hd] at hxe
      exact hd (toupper_eq_dot x hxe)

/-- Witness of C12: the header name `a.b/c.d/e.f.h`. -/
theorem C12_guard_chars_witness :
    NUL ∉ "a.b/c.d/e.f.h".toList
      ∧ ('/' ∉ cstr (GenerateIGName (asciz "a.b/c.d/e.f.h".toList)
            (strlen (asciz "a.b/c.d/e.f.h".toList)))
        ∧ '.' ∉ cstr (GenerateIGName (asciz "a.b/c.d/e.f.h".toList)
            (strlen (asciz "a.b/c.d/e.f.h".toList)))) :=
  ⟨by decide, C12_guard_chars "a.b/c.d/e.f.h".toList (by decide)⟩

/-- C13: on the zero-length string the three derivation functions return
the C strings `.h`, `EMBED_` and the empty string, for every incoming
ownership flag. -/
theorem C13_empty_path :
    (∀ ownershipFlag : Nat,
        (GenerateHeaderName ownershipFlag (asciz []) (strlen (asciz []))).1
          = asciz ".h".toList)
      ∧ (∀ ownershipFlag : Nat,
        (GenerateDefinitionName ownershipFlag (asciz []) (strlen (asciz []))).1
          = asciz "EMBED_".toList)
      ∧ GenerateIGName (asciz []) (strlen (asciz [])) = asciz []
      ∧ cstr (GenerateIGName (asciz []) (strlen (asciz []))) = [] := by
  refine ⟨fun _ => rfl, fun _ => rfl, by decide, by decide⟩

/-- C14: on a destination that exists with content `old`, for every list of
options that parses and every source path: without `-f` the flags contain
`O_EXCL`, the open of the destination fails, and the run ends with
`EXIT_FAILURE` and the message of `ErrorExit`, the destination still holding
`old`; with `-f` the flags contain `O_TRUNC` and not `O_EXCL`, the open gives
an empty file, and once the source is open the run is the run on an absent
destination: on success the destination holds exactly what `writeDocument`
wrote on the empty descriptor. -/
theorem C14_overwrite_policy (progName sourcePath old : List Char)
    (opts : List GetoptResult) (a : Options) (env : Env)
    (hparse : opts.foldlM parseOption
      { output := none, definition := none, replaceFlag := O_EXCL } = some a)
    (hdest : env.dest = some old) :
    (GetoptResult.f ∉ opts →
        a.replaceFlag = O_EXCL
        ∧ openOutput env.dest (O_WRONLY ||| O_CREAT ||| O_TRUNC ||| a.replaceFlag) = none
        ∧ (main progName opts [sourcePath] env).status = EXIT_FAILURE
        ∧ (main progName opts [sourcePath] env).stderr = ErrorExit env.strerror
        ∧ (main progName opts [sourcePath] env).dest = some old)
      ∧ (GetoptResult.f ∈ opts →
        a.replaceFlag = 0
        ∧ (O_WRONLY ||| O_CREAT ||| O_TRUNC ||| a.replaceFlag) &&& O_TRUNC ≠ 0
        ∧ (O_WRONLY ||| O_CREAT ||| O_TRUNC ||| a.replaceFlag) &&& O_EXCL = 0
        ∧ openOutput env.dest (O_WRONLY ||| O_CREAT ||| O_TRUNC ||| a.replaceFlag) = some []
        ∧ ∀ reads, env.sourceFD = some reads →
            main progName opts [sourcePath] env
                = main progName opts [sourcePath] { env with dest := none }
              ∧ ∀ written,
                  writeDocument [] reads
                      (resolveNames 0 a.output a.definition sourcePath).includeGuard
                      (resolveNames 0 a.output a.definition sourcePath).IGSize
                      (resolveNames 0 a.output a.definition sourcePath).definition
                      env.byteStr = .ok written →
                  main progName opts [sourcePath] env
                    = { status := 0
                        stderr := []
                        output := some (resolveNames 0 a.output a.definition sourcePath).output
                        dest := some written }) := by
  have hflag := foldlM_parseOption_replaceFlag opts _ a hparse
  constructor
  · intro hf
    rw [if_neg hf] at hflag
    have hflag2 : a.replaceFlag = O_EXCL := hflag
    rw [main_eq_mainRun progName sourcePath opts a env hparse]
    refine ⟨hflag2, ?_, mainRun_existing_excl a sourcePath old env hflag2 hdest⟩
    rw [hdest, hflag2, openOutput_existing_excl]
  · intro hf
    rw [if_pos hf] at hflag
    refine ⟨hflag, ?_, ?_, ?_, ?_⟩
    · rw [hflag]; decide
    · rw [hflag]; decide
    · rw [hdest, hflag, openOutput_existing_force]
    · intro reads hreads
      obtain ⟨sourceFD, dest, byteStr, strerror⟩ := env
      simp only at hdest hreads
      subst hdest hreads
      rw [main_eq_mainRun progName sourcePath opts a _ hparse,
        main_eq_mainRun progName sourcePath opts a _ hparse,
        mainRun_existing_force a sourcePath old _ hflag rfl]
      have hfresh := mainRun_fresh a sourcePath strerror reads byteStr (Or.inr hflag)
      refine ⟨hfresh.symm, ?_⟩
      intro written hw
      simp only [hw]

/-- Witness of C14: the options `-f`, the source `a.txt` holding the byte 65
and a destination holding `old`. -/
theorem C14_overwrite_policy_witness :
    ([GetoptResult.f].foldlM parseOption
          { output := none, definition := none, replaceFlag := O_EXCL }
          = some { output := none, definition := none, replaceFlag := 0 }
        ∧ exampleEnv.dest = some "old".toList)
      ∧ ((GetoptResult.f ∉ [GetoptResult.f] →
          (0 : Nat) = O_EXCL
          ∧ openOutput exampleEnv.dest (O_WRONLY ||| O_CREAT ||| O_TRUNC ||| 0) = none
          ∧ (main (asciz "embed".toList) [GetoptResult.f] [asciz "a.txt".toList] exampleEnv).status
            = EXIT_FAILURE
          ∧ (main (asciz "embed".toList) [GetoptResult.f] [asciz "a.txt".toList] exampleEnv).stderr
            = ErrorExit exampleEnv.strerror
          ∧ (main (asciz "embed".toList) [GetoptResult.f] [asciz "a.txt".toList] exampleEnv).dest
            = some "old".toList)
        ∧ (GetoptResult.f ∈ [GetoptResult.f] →
          (0 : Nat) = 0
          ∧ (O_WRONLY ||| O_CREAT ||| O_TRUNC ||| 0) &&& O_TRUNC ≠ 0
          ∧ (O_WRONLY ||| O_CREAT ||| O_TRUNC ||| 0) &&& O_EXCL = 0
          ∧ openOutput exampleEnv.dest (O_WRONLY ||| O_CREAT ||| O_TRUNC ||| 0) = some []
          ∧ ∀ reads, exampleEnv.sourceFD = some reads →
              main (asciz "embed".toList) [GetoptResult.f] [asciz "a.txt".toList] exampleEnv
                  = main (asciz "embed".toList) [GetoptResult.f] [asciz "a.txt".toList]
                      { exampleEnv with dest := none }
                ∧ ∀ written,
                    writeDocument [] reads
                        (resolveNames 0 none none (asciz "a.txt".toList)).includeGuard
                        (resolveNames 0 none none (asciz "a.txt".toList)).IGSize
                        (resolveNames 0 none none (asciz "a.txt".toList)).definition
                        exampleEnv.byteStr = .ok written →
                    main (asciz "embed".toList) [GetoptResult.f] [asciz "a.txt".toList] exampleEnv
                      = { status := 0
                          stderr := []
                          output := some (resolveNames 0 none none (asciz "a.txt".toList)).output
                          dest := some written })) :=
  ⟨⟨rfl, rfl⟩,
    C14_overwrite_policy (asciz "embed".toList) (asciz "a.txt".toList) "old".toList
      [GetoptResult.f] { output := none, definition := none, replaceFlag := 0 } exampleEnv rfl rfl⟩

/-- C15 (defect of the code): `UsageError` writes the program name directly
followed by `[-o output] [-d define] [-f] filename\n`, with no space in
between; for the program name `embed` the text is
`Usage: embed[-o output] ...`, not `Usage: embed [-o output] ...`.  The
process exits with `EXIT_FAILURE`. -/
theorem C15_usage_text :
    (∀ prog : List Char, NUL ∉ prog →
        UsageError (asciz prog)
          = "Usage: ".toList ++ prog ++ "[-o output] [-d define] [-f] filename\n".toList)
      ∧ UsageError (asciz "embed".toList)
          = "Usage: embed[-o output] [-d define] [-f] filename\n".toList
      ∧ UsageError (asciz "embed".toList)
          ≠ "Usage: ".toList ++ "embed".toList
              ++ " [-o output] [-d define] [-f] filename\n".toList
      ∧ (∀ (progName : List Char) (env : Env),
          main progName [] [] env
            = { status := EXIT_FAILURE, stderr := UsageError progName, output := none,
                dest := env.dest })
      ∧ EXIT_FAILURE ≠ 0 := by
  refine ⟨UsageError_asciz, by decide, by decide, fun _ _ => rfl, by decide⟩

/-- C16: for a byte `b` below 256 the token `ByteToDecString` stores is the
decimal representation of `b` exactly when `b < 100` or the tens digit of
`b` is not zero; otherwise `b` is in 100..109 or 200..209 and the token is
the hundreds digit followed by the units digit, which is the decimal
representation, and the token, of the different byte
`10 * (b / 100) + b % 10`; so two distinct bytes have the same token. -/
theorem C16_token_characterisation (ptr : Nat → Char) (b : Nat) (hb : b < 256) :
    (bufTake (ByteToDecString ptr b).1 (ByteToDecString ptr b).2 = Nat.toDigits 10 b
        ↔ (b < 100 ∨ 10 ≤ b % 100))
      ∧ (¬ (b < 100 ∨ 10 ≤ b % 100) →
          ((100 ≤ b ∧ b ≤ 109) ∨ (200 ≤ b ∧ b ≤ 209))
            ∧ bufTake (ByteToDecString ptr b).1 (ByteToDecString ptr b).2
              = [numerals.getD (b / 100) NUL, numerals.getD (b % 10) NUL]
            ∧ bufTake (ByteToDecString ptr b).1 (ByteToDecString ptr b).2
              = Nat.toDigits 10 (10 * (b / 100) + b % 10)
            ∧ bufTake (ByteToDecString ptr b).1 (ByteToDecString ptr b).2
              = decToken (10 * (b / 100) + b % 10)
            ∧ 10 * (b / 100) + b % 10 ≠ b
            ∧ 10 * (b / 100) + b % 10 < 256)
      ∧ ∃ b1 b2 : Nat, b1 < 256 ∧ b2 < 256 ∧ b1 ≠ b2 ∧ decToken b1 = decToken b2 := by
  rw [stored_eq_decToken]
  exact ⟨decToken_canonical_iff b hb, decToken_collapsed b hb,
    ⟨100, 10, by decide, by decide, by decide, by decide⟩⟩

/-- Witness of C16: the byte 207, whose token is `27`. -/
theorem C16_token_characterisation_witness :
    207 < 256
      ∧ ((bufTake (ByteToDecString (fun _ => NUL) 207).1 (ByteToDecString (fun _ => NUL) 207).2
            = Nat.toDigits 10 207 ↔ (207 < 100 ∨ 10 ≤ 207 % 100))
        ∧ (¬ (207 < 100 ∨ 10 ≤ 207 % 100) →
            ((100 ≤ 207 ∧ 207 ≤ 109) ∨ (200 ≤ 207 ∧ 207 ≤ 209))
              ∧ bufTake (ByteToDecString (fun _ => NUL) 207).1
                  (ByteToDecString (fun _ => NUL) 207).2
                = [numerals.getD (207 / 100) NUL, numerals.getD (207 % 10) NUL]
              ∧ bufTake (ByteToDecString (fun _ => NUL) 207).1
                  (ByteToDecString (fun _ => NUL) 207).2
                = Nat.toDigits 10 (10 * (207 / 100) + 207 % 10)
              ∧ bufTake (ByteToDecString (fun _ => NUL) 207).1
                  (ByteToDecString (fun _ => NUL) 207).2
                = decToken (10 * (207 / 100) + 207 % 10)
              ∧ 10 * (207 / 100) + 207 % 10 ≠ 207
              ∧ 10 * (207 / 100) + 207 % 10 < 256)
        ∧ ∃ b1 b2 : Nat, b1 < 256 ∧ b2 < 256 ∧ b1 ≠ b2 ∧ decToken b1 = decToken b2) :=
  ⟨by decide, C16_token_characterisation (fun _ => NUL) 207 (by decide)⟩

/-- C17: for a byte `b` below 256 `ByteToDecString` returns a count between
1 and 3, leaves every position of the buffer from the count on as it was,
and stores a decimal digit at every position below the count, the three
indices into `numerals` being below 10; so the loop of `EmbedSource` never
changes a position of `byteStr` from 3 on, and the body of a sequence of
bytes consists of decimal digits and commas. -/
theorem C17_buffer_safety (ptr : Nat → Char) (b : Nat) (hb : b < 256) :
    (1 ≤ (ByteToDecString ptr b).2 ∧ (ByteToDecString ptr b).2 ≤ 3)
      ∧ (∀ i, (ByteToDecString ptr b).2 ≤ i → (ByteToDecString ptr b).1 i = ptr i)
      ∧ (∀ i, i < (ByteToDecString ptr b).2 → isDigitChar ((ByteToDecString ptr b).1 i))
      ∧ ((b / 100) % 256 < numerals.length ∧ ((b % 100) / 10) % 256 < numerals.length
          ∧ b % 10 < numerals.length ∧ numerals.length = 10)
      ∧ (∀ (chunk : List Nat) (s : EmbedState) (i : Nat), 3 ≤ i →
          (chunk.foldl embedByte s).byteStr i = s.byteStr i)
      ∧ (∀ bs : List Nat, (∀ x ∈ bs, x < 256) → ∀ c ∈ body bs, isDigitChar c ∨ c = ',') := by
  refine ⟨⟨one_le_count ptr b, count_le_three ptr b⟩, ByteToDecString_frame ptr b, ?_, ?_,
    foldl_embedByte_byteStr_frame, ?_⟩
  · intro i hi
    apply decToken_digits b hb
    rw [← stored_eq_decToken ptr b]
    exact List.mem_map.2 ⟨i, List.mem_range.2 hi, rfl⟩
  · have hn : numerals.length = 10 := by decide
    rw [hn]
    omega
  · intro bs hbs c hc
    rw [← sepTokens_zero] at hc
    rcases mem_sepTokens 0 bs c hc with h | ⟨x, hx, hcx⟩
    · exact Or.inr h
    · exact Or.inl (decToken_digits x (hbs x hx) c hcx)

/-- Witness of C17: the byte 105 on a buffer filled with `x`. -/
theorem C17_buffer_safety_witness :
    105 < 256
      ∧ ((1 ≤ (ByteToDecString (fun _ => 'x') 105).2
            ∧ (ByteToDecString (fun _ => 'x') 105).2 ≤ 3)
        ∧ (∀ i, (ByteToDecString (fun _ => 'x') 105).2 ≤ i →
            (ByteToDecString (fun _ => 'x') 105).1 i = (fun _ => 'x') i)
        ∧ (∀ i, i < (ByteToDecString (fun _ => 'x') 105).2 →
            isDigitChar ((ByteToDecString (fun _ => 'x') 105).1 i))
        ∧ ((105 / 100) % 256 < numerals.length ∧ ((105 % 100) / 10) % 256 < numerals.length
            ∧ 105 % 10 < numerals.length ∧ numerals.length = 10)
        ∧ (∀ (chunk : List Nat) (s : EmbedState) (i : Nat), 3 ≤ i →
            (chunk.foldl embedByte s).byteStr i = s.byteStr i)
        ∧ (∀ bs : List Nat, (∀ x ∈ bs, x < 256) →
            ∀ c ∈ body bs, isDigitChar c ∨ c = ',')) :=
  ⟨by decide, C17_buffer_safety (fun _ => 'x') 105 (by decide)⟩

/-- C18: with neither `-o` nor `-d`, for every source path `p` (a C string)
`main` settles on the header name `p` with `.` and `/` replaced by `_`
followed by `.h`, on the macro name `EMBED_` followed by the stem of `p`,
and on the guard token made of the same stem followed by `_H`; the header
name contains no `/`, so the guard is taken from all of it, and the guard
is never empty. -/
theorem C18_default_names (p : List Char) (hp : NUL ∉ p) :
    resolveNames 0 none none (asciz p)
        = { ownershipFlag := 3
            output := asciz (p.map (fun c => if c = '.' ∨ c = '/' then '_' else c)
              ++ ".h".toList)
            definition := asciz ("EMBED_".toList ++ stem p)
            includeGuard := asciz (stem p ++ "_H".toList)
            IGSize := (stem p).length + 2 }
      ∧ GenerateIGName (GenerateHeaderName 0 (asciz p) (strlen (asciz p))).1
          (strlen (GenerateHeaderName 0 (asciz p) (strlen (asciz p))).1)
        = asciz (stem p ++ "_H".toList)
      ∧ (GenerateDefinitionName 0 (asciz p) (strlen (asciz p))).1
        = asciz ("EMBED_".toList ++ stem p)
      ∧ '/' ∉ cstr (GenerateHeaderName 0 (asciz p) (strlen (asciz p))).1
      ∧ cstr (resolveNames 0 none none (asciz p)).includeGuard ≠ []
      ∧ (∀ (progName : List Char) (env : Env),
          main progName [] [asciz p] env
            = mainRun { output := none, definition := none, replaceFlag := O_EXCL }
                (asciz p) env) := by
  have hres := resolveNames_default p hp
  have hnul := headerChars_ne_NUL p hp
  have hnul2 : NUL ∉ stem p ++ "_H".toList := by
    have := igChars_ne_NUL _ hnul
    rwa [lastComponent_of_no_slash _ (headerChars_no_slash p), map_guard_header] at this
  refine ⟨hres, ?_, GenerateDefinitionName_asciz 0 p hp, ?_, ?_, fun _ _ => rfl⟩
  · have := congrArg Names.includeGuard hres
    exact this
  · rw [GenerateHeaderName_asciz 0 p hp, cstr_asciz _ hnul]
    exact headerChars_no_slash p
  · rw [hres]
    show cstr (asciz (stem p ++ "_H".toList)) ≠ []
    rw [cstr_asciz _ hnul2]
    simp

/-- Witness of C18: the source path `a/b.c`. -/
theorem C18_default_names_witness :
    NUL ∉ "a/b.c".toList
      ∧ (resolveNames 0 none none (asciz "a/b.c".toList)
          = { ownershipFlag := 3
              output := asciz ("a/b.c".toList.map
                (fun c => if c = '.' ∨ c = '/' then '_' else c) ++ ".h".toList)
              definition := asciz ("EMBED_".toList ++ stem "a/b.c".toList)
              includeGuard := asciz (stem "a/b.c".toList ++ "_H".toList)
              IGSize := (stem "a/b.c".toList).length + 2 }
        ∧ GenerateIGName
            (GenerateHeaderName 0 (asciz "a/b.c".toList) (strlen (asciz "a/b.c".toList))).1
            (strlen
              (GenerateHeaderName 0 (asciz "a/b.c".toList) (strlen (asciz "a/b.c".toList))).1)
          = asciz (stem "a/b.c".toList ++ "_H".toList)
        ∧ (GenerateDefinitionName 0 (asciz "a/b.c".toList) (strlen (asciz "a/b.c".toList))).1
          = asciz ("EMBED_".toList ++ stem "a/b.c".toList)
        ∧ '/' ∉ cstr
            (GenerateHeaderName 0 (asciz "a/b.c".toList) (strlen (asciz "a/b.c".toList))).1
        ∧ cstr (resolveNames 0 none none (asciz "a/b.c".toList)).includeGuard ≠ []
        ∧ (∀ (progName : List Char) (env : Env),
            main progName [] [asciz "a/b.c".toList] env
              = mainRun { output := none, definition := none, replaceFlag := O_EXCL }
                  (asciz "a/b.c".toList) env)) :=
  ⟨by decide, C18_default_names "a/b.c".toList (by decide)⟩

/-- C19: for an ownership flag that fits the `uint8_t`, `GenerateHeaderName`
returns the flag with the bit `DEST_STR_OWNED` (bit 0) set and every other
bit as it was, `GenerateDefinitionName` the flag with the bit
`DEF_STR_OWNED` (bit 1) set and every other bit as it was, and neither name
depends on the flag; starting from flag 0, after `main` has settled the
names the bit `DEST_STR_OWNED` is set exactly when no `-o` was given and the
bit `DEF_STR_OWNED` exactly when no `-d` was given, so that the final lines
of `main` free the output name exactly when it was generated and the macro
name exactly when it was generated, leaving the flag at 0. -/
theorem C19_ownership_flag (ownershipFlag : Nat) (source : List Char) (length : Nat)
    (hflag : ownershipFlag < 256) :
    ((GenerateHeaderName ownershipFlag source length).2 = ownershipFlag ||| DEST_STR_OWNED
        ∧ (GenerateHeaderName ownershipFlag source length).2.testBit 0 = true
        ∧ (∀ i, i ≠ 0 → (GenerateHeaderName ownershipFlag source length).2.testBit i
            = ownershipFlag.testBit i)
        ∧ (GenerateHeaderName ownershipFlag source length).1
            = (GenerateHeaderName 0 source length).1)
      ∧ ((GenerateDefinitionName ownershipFlag source length).2
            = ownershipFlag ||| DEF_STR_OWNED
        ∧ (GenerateDefinitionName ownershipFlag source length).2.testBit 1 = true
        ∧ (∀ i, i ≠ 1 → (GenerateDefinitionName ownershipFlag source length).2.testBit i
            = ownershipFlag.testBit i)
        ∧ (GenerateDefinitionName ownershipFlag source length).1
            = (GenerateDefinitionName 0 source length).1)
      ∧ (∀ (o d : Option (List Char)) (s : List Char),
          ((resolveNames 0 o d s).ownershipFlag &&& DEST_STR_OWNED ≠ 0 ↔ o = none)
            ∧ ((resolveNames 0 o d s).ownershipFlag &&& DEF_STR_OWNED ≠ 0 ↔ d = none)
            ∧ release (resolveNames 0 o d s).ownershipFlag
              = { definition := d.isNone, output := o.isNone, ownershipFlag := 0 }) := by
  have h1 : (GenerateHeaderName ownershipFlag source length).2
      = ownershipFlag ||| DEST_STR_OWNED := lor_DEST_mod ownershipFlag hflag
  have h2 : (GenerateDefinitionName ownershipFlag source length).2
      = ownershipFlag ||| DEF_STR_OWNED := lor_DEF_mod ownershipFlag hflag
  refine ⟨⟨h1, ?_, ?_, rfl⟩, ⟨h2, ?_, ?_, rfl⟩, resolveNames_flag_release⟩
  · rw [h1, Nat.testBit_or, testBit_DEST]; simp
  · intro i hi
    rw [h1, Nat.testBit_or, testBit_DEST]
    have : ¬ (0 = i) := fun e => hi e.symm
    simp [this]
  · rw [h2, Nat.testBit_or, testBit_DEF]; simp
  · intro i hi
    rw [h2, Nat.testBit_or, testBit_DEF]
    have : ¬ (1 = i) := fun e => hi e.symm
    simp [this]

/-- Witness of C19: the incoming flag 4, whose bit 2 stays set. -/
theorem C19_ownership_flag_witness :
    4 < 256
      ∧ (((GenerateHeaderName 4 (asciz "a.b".toList) 3).2 = 4 ||| DEST_STR_OWNED
          ∧ (GenerateHeaderName 4 (asciz "a.b".toList) 3).2.testBit 0 = true
          ∧ (∀ i, i ≠ 0 → (GenerateHeaderName 4 (asciz "a.b".toList) 3).2.testBit i
              = Nat.testBit 4 i)
          ∧ (GenerateHeaderName 4 (asciz "a.b".toList) 3).1
              = (GenerateHeaderName 0 (asciz "a.b".toList) 3).1)
        ∧ ((GenerateDefinitionName 4 (asciz "a.b".toList) 3).2 = 4 ||| DEF_STR_OWNED
          ∧ (GenerateDefinitionName 4 (asciz "a.b".toList) 3).2.testBit 1 = true
          ∧ (∀ i, i ≠ 1 → (GenerateDefinitionName 4 (asciz "a.b".toList) 3).2.testBit i
              = Nat.testBit 4 i)
          ∧ (GenerateDefinitionName 4 (asciz "a.b".toList) 3).1
              = (GenerateDefinitionName 0 (asciz "a.b".toList) 3).1)
        ∧ (∀ (o d : Option (List Char)) (s : List Char),
            ((resolveNames 0 o d s).ownershipFlag &&& DEST_STR_OWNED ≠ 0 ↔ o = none)
              ∧ ((resolveNames 0 o d s).ownershipFlag &&& DEF_STR_OWNED ≠ 0 ↔ d = none)
              ∧ release (resolveNames 0 o d s).ownershipFlag
                = { definition := d.isNone, output := o.isNone, ownershipFlag := 0 })) :=
  ⟨by decide, C19_ownership_flag 4 (asciz "a.b".toList) 3 (by decide)⟩

end Embed
